import Mathlib

/-!
Shallow embedding of the `template-switch-generator` repository
(`src/n_gram_model/mod.rs`, `src/sequence_modifier/mod.rs`,
`src/sequence_modifier/template_switch_overlap_detector.rs`, `src/error.rs`)
together with theorems settling the specification claims about it.

Conventions of the embedding:
* `usize` values are `Nat`, `isize` values are `Int`; the Rust casts
  `as usize` / `as isize` are the explicit wrap-around functions
  `toUsize` / `toIsize` below (64-bit platform).
* Alphabet characters are their indices (`Nat`), valid iff `< alphabetSize`;
  a genome sequence is a `List Nat`; a k-mer is a `List Nat` of length `N`.
* Fallible code returns `Option`/`Except`; a Rust panic (failed `unwrap`,
  out-of-bounds index, overflowing checked arithmetic, `Uniform::new` with an
  empty interval) is `none` / a dedicated `panic` constructor.
* A random number generator state is an infinite stream `Nat → Nat` plus a
  position; a uniform draw from a nonempty finite range of size `s` takes the
  next stream element modulo `s` and advances the position, so quantifying
  over all streams covers all sequences of in-range draws an RNG can produce.
-/

namespace TSGen

/-- The value `isize::MAX` on a 64-bit platform. -/
def isizeMax : Nat := 2 ^ 63 - 1

/-- Rust `x as usize` applied to an `isize` value: two's-complement
reinterpretation, i.e. reduction modulo `2^64`. -/
def toUsize (i : Int) : Nat := (i % (2 : Int) ^ 64).toNat

/-- Rust `n as isize` applied to a `usize` value: two's-complement
reinterpretation of the low 64 bits. -/
def toIsize (n : Nat) : Int :=
  if (n : Int) % 2 ^ 64 < 2 ^ 63 then (n : Int) % 2 ^ 64
  else (n : Int) % 2 ^ 64 - 2 ^ 64

/-- The `SequenceModification` type from `src/sequence_modifier/mod.rs`. -/
inductive SequenceModification where
  | templateSwitch (position length : Nat) (offset length_difference : Int)
  | insertion (position source length : Nat)
  | deletion (position length : Nat)
  | substitution (position character_increment : Nat)
  deriving DecidableEq, Repr

/-- The `TemplateSwitchCollision` verdict from
`src/sequence_modifier/template_switch_overlap_detector.rs`. -/
inductive TemplateSwitchCollision where
  | Overlap
  | Independent
  deriving DecidableEq, Repr

/-- State of `TemplateSwitchOverlapDetector`; a `Range<usize>` `a..b` is the pair
`(a, b)`. -/
structure TemplateSwitchOverlapDetector where
  template_switches : List (Nat × Nat)
  modification_stack : List SequenceModification
  margin : Nat
  deriving DecidableEq, Repr

/-- Embeds `TemplateSwitchOverlapDetector::from_template_switch_margin`. -/
def freshDetector (margin : Nat) : TemplateSwitchOverlapDetector :=
  { template_switches := [], modification_stack := [], margin := margin }

/-- One step of the fold in `apply_modification` that rewrites a candidate
range back through a previously applied modification (lines 64-110 of
`template_switch_overlap_detector.rs`).  The `usize` subtractions
`new_range.start - length` / additions are wrapping (release semantics; in
the template-switch arm the wrap is explicit in the source via
`as isize` / `as usize`). -/
def rewriteStep (m : SequenceModification) (r : Nat × Nat) : Nat × Nat :=
  match m with
  | .templateSwitch position _ _ length_difference =>
      (if r.1 > position then
        max position (toUsize (toIsize r.1 - length_difference)) else r.1,
       if r.2 > position then
        max position (toUsize (toIsize r.2 - length_difference)) else r.2)
  | .insertion position _ length =>
      (if r.1 > position then max position (toUsize ((r.1 : Int) - length)) else r.1,
       if r.2 > position then max position (toUsize ((r.2 : Int) - length)) else r.2)
  | .deletion position length =>
      (if r.1 > position then max position (toUsize ((r.1 : Int) + length)) else r.1,
       if r.2 > position then max position (toUsize ((r.2 : Int) + length)) else r.2)
  | .substitution _ _ => r

/-- The fold `self.modification_stack.iter().rev().fold(new_range, ...)`. -/
def rewriteRange (stack : List SequenceModification) (r : Nat × Nat) : Nat × Nat :=
  stack.reverse.foldl (fun r m => rewriteStep m r) r

/-- Embeds `Vec::insert(index, element)` on the list of ranges. -/
def insertAt : List (Nat × Nat) → Nat → (Nat × Nat) → List (Nat × Nat)
  | l, 0, a => a :: l
  | [], _ + 1, a => [a]
  | x :: l, n + 1, a => x :: insertAt l n a

/-- The search/overlap-check/insert tail of the template-switch arm of
`apply_modification` (lines 112-131): find the first stored range whose end
exceeds the candidate's start, reject (`none`) if it overlaps the candidate,
otherwise insert the candidate there. -/
def tryInsert (l : List (Nat × Nat)) (nr : Nat × Nat) : Option (List (Nat × Nat)) :=
  let insertion_offset := (l.takeWhile (fun r => r.2 ≤ nr.1)).length
  match l[insertion_offset]? with
  | some r =>
      if nr.1 < r.2 ∧ r.1 < nr.2 then none
      else some (insertAt l insertion_offset nr)
  | none => some (insertAt l insertion_offset nr)

/-- The candidate range of a template switch in *original* coordinates:
the margin-expanded affected range, rewritten through the modification
stack (most recent first). -/
def tsCandidate (d : TemplateSwitchOverlapDetector)
    (position length : Nat) (offset length_difference : Int) : Nat × Nat :=
  let range_offset :=
    min position (toUsize (toIsize position - (length : Int) + offset))
  let range_limit :=
    max (max position (toUsize (toIsize position + (length : Int) - length_difference)))
      (toUsize (toIsize position + offset))
  rewriteRange d.modification_stack (range_offset - d.margin, range_limit + d.margin)

/-- Embeds `TemplateSwitchOverlapDetector::apply_modification`; returns the updated
detector together with the collision verdict. -/
def applyModification (d : TemplateSwitchOverlapDetector) (m : SequenceModification) :
    TemplateSwitchOverlapDetector × TemplateSwitchCollision :=
  match m with
  | .templateSwitch position length offset length_difference =>
      let range_offset :=
        min position (toUsize (toIsize position - (length : Int) + offset))
      let range_limit :=
        max (max position (toUsize (toIsize position + (length : Int) - length_difference)))
          (toUsize (toIsize position + offset))
      if range_offset < d.margin ∨ range_offset > isizeMax ∨ range_limit > isizeMax then
        (d, .Overlap)
      else
        match tryInsert d.template_switches (tsCandidate d position length offset length_difference) with
        | none => (d, .Overlap)
        | some l =>
            ({ d with template_switches := l,
                      modification_stack := d.modification_stack ++ [m] },
             .Independent)
  | _ =>
      ({ d with modification_stack := d.modification_stack ++ [m] }, .Independent)

/-- Fold a list of modifications through the detector, keeping only the state. -/
def applyAll (d : TemplateSwitchOverlapDetector) (ms : List SequenceModification) :
    TemplateSwitchOverlapDetector :=
  ms.foldl (fun d m => (applyModification d m).1) d

/-- The ranges `[a₁, b₁)` and `[a₂, b₂)` share no point. -/
def RangeDisjoint (r s : Nat × Nat) : Prop :=
  ∀ x : Nat, r.1 ≤ x → x < r.2 → ¬(s.1 ≤ x ∧ x < s.2)

/-- The stored range list is sorted by range start and pairwise disjoint. -/
def SortedDisjoint (l : List (Nat × Nat)) : Prop :=
  l.Pairwise (fun r s => r.1 ≤ s.1) ∧ l.Pairwise RangeDisjoint

/-- The inductive invariant of the stored range list: every range is
well-formed (`start ≤ end`) and every range ends no later than the next
one begins. -/
def DetectorInv (l : List (Nat × Nat)) : Prop :=
  (∀ r ∈ l, r.1 ≤ r.2) ∧ l.Pairwise (fun r s => r.2 ≤ s.1)

/-- A modification is range-safe for the current detector state: if it is a
template switch, its candidate range is still well-formed after the rewrite
through the modification stack (no `usize` wrap-around collapsed it). -/
def rangeOkB (d : TemplateSwitchOverlapDetector) (m : SequenceModification) : Bool :=
  match m with
  | .templateSwitch position length offset length_difference =>
      decide ((tsCandidate d position length offset length_difference).1 ≤
        (tsCandidate d position length offset length_difference).2)
  | _ => true

/-- Every call of the trace is range-safe for the state it is applied to. -/
def goodTraceB : TemplateSwitchOverlapDetector → List SequenceModification → Bool
  | _, [] => true
  | d, m :: ms => rangeOkB d m && goodTraceB (applyModification d m).1 ms

/-- The constructors of `src/error.rs` reached by the embedded code. -/
inductive Error where
  | LengthLowerThanN (length n : Nat)
  | EmptyModel
  | SequenceTooShortForTemplateSwitch
      (sequence_length template_switch_required_sequence_length : Nat)
  | SequenceTooShortForGap (sequence_length gap_length : Nat)
  deriving DecidableEq, Repr

/-- Embeds `(0..n).choose(rng)`: `none` iff the range is empty, otherwise the next
RNG stream value reduced into the range. -/
def chooseRange (n r : Nat) : Option Nat :=
  if n = 0 then none else some (r % n)

/-- Outcome of one arm of `SequenceModifier::next`: a propagated error, a
Rust panic, or a produced modification. -/
inductive GapOutcome where
  | error (e : Error)
  | panic
  | ok (m : SequenceModification)
  deriving DecidableEq, Repr

/-- The gap arm of `SequenceModifier::next`
(`src/sequence_modifier/mod.rs` lines 209-227), given the current sequence
length `P`, the already sampled and rounded gap length `L`, the fair-coin
flip (`true` = insertion), and the next two RNG draws.  `panic` is the
`.unwrap()` on a uniform draw over an empty range. -/
def gapBranch (P L : Nat) (coin : Bool) (r1 r2 : Nat) : GapOutcome :=
  if L > P then .error (.SequenceTooShortForGap P L)
  else if coin then
    match chooseRange P r1, chooseRange (P - L) r2 with
    | some position, some source => .ok (.insertion position source L)
    | _, _ => .panic
  else
    match chooseRange (P - L) r1 with
    | some position => .ok (.deletion position L)
    | none => .panic

/-- A k-mer context: the list of its character indices (the bit-packed
`BitArrayKmer`, unpacked). -/
abbrev Kmer := List Nat

/-- The `BTreeMap<BitArrayKmer, [u32; A]>` of `NGramModel`, embedded as its
ordered association list of (context, count array) entries. -/
abbrev Model := List (Kmer × List Nat)

/-- Strict lexicographic order on contexts (the `Ord` of the k-mer key). -/
def kmerLt : Kmer → Kmer → Bool
  | [], [] => false
  | [], _ :: _ => true
  | _ :: _, [] => false
  | a :: as, b :: bs => if a < b then true else if b < a then false else kmerLt as bs

/-- Embeds `BTreeMap::get`. -/
def modelLookup : Model → Kmer → Option (List Nat)
  | [], _ => none
  | (k, row) :: rest, key => if key = k then some row else modelLookup rest key

/-- The fresh count array inserted on first sight of a context:
`[0; A]` with the successor's entry set to `1` (`none` models the
out-of-bounds panic, unreachable for valid characters). -/
def freshRow (A succ : Nat) : Option (List Nat) :=
  if succ < A then some ((List.replicate A 0).set succ 1) else none

/-- Embeds `abundances[i] = abundances[i].checked_add(1).unwrap()`: increment the
`i`-th `u32` count, `none` on overflow or out-of-bounds. -/
def incAt : List Nat → Nat → Option (List Nat)
  | [], _ => none
  | c :: t, 0 => if c + 1 < 2 ^ 32 then some ((c + 1) :: t) else none
  | c :: t, n + 1 => (incAt t n).map (c :: ·)

/-- Record one training window: increment the count of `succ` under context
`kmer`, inserting a fresh row at the ordered position on first sight
(the `BTreeMap` update of `NGramModel::from_sequences`). -/
def bump (A : Nat) : Model → Kmer → Nat → Option Model
  | [], kmer, succ => (freshRow A succ).map (fun row => [(kmer, row)])
  | (k, row) :: rest, kmer, succ =>
      if kmer = k then (incAt row succ).map (fun row' => (k, row') :: rest)
      else if kmerLt kmer k then
        (freshRow A succ).map (fun row' => (kmer, row') :: (k, row) :: rest)
      else (bump A rest kmer succ).map ((k, row) :: ·)

/-- The slice `s[offset..offset + N]`; `none` is the out-of-range panic. -/
def seqWindow (s : List Nat) (offset N : Nat) : Option (List Nat) :=
  if offset + N ≤ s.length then some ((s.drop offset).take N) else none

/-- The loop bound `sequence.len() - N - 1` of `from_sequences`, computed in
wrapping `usize` arithmetic (for `len ≤ N` the debug build panics on the
underflow; the release build wraps and then panics inside the first loop
iteration on an out-of-bounds index — either way the overall run dies, which
the caller of this function maps to `none`). -/
def trainBound (len N : Nat) : Nat := toUsize ((len : Int) - N - 1)

/-- The training loop body of `from_sequences` over one sequence:
`steps` remaining iterations starting at `offset`. -/
def trainWindows (A N : Nat) (s : List Nat) : Model → Nat → Nat → Option Model
  | model, _, 0 => some model
  | model, offset, steps + 1 =>
      match seqWindow s offset N, s[offset + N]? with
      | some kmer, some succ =>
          match bump A model kmer succ with
          | some model' => trainWindows A N s model' (offset + 1) steps
          | none => none
      | _, _ => none

/-- Train one sequence: `for offset in 0..sequence.len() - N - 1 { ... }`. -/
def trainSequence (A N : Nat) (model : Model) (s : List Nat) : Option Model :=
  trainWindows A N s model 0 (trainBound s.length N)

/-- The fold of `from_sequences` over all input sequences. -/
def fromSequencesGo (A N : Nat) : Model → List (List Nat) → Option Model
  | model, [] => some model
  | model, s :: rest =>
      match trainSequence A N model s with
      | some model' => fromSequencesGo A N model' rest
      | none => none

/-- Embeds `NGramModel::from_sequences` (alphabet size `A`, context length `N`);
`none` models a panic (index underflow/out-of-bounds for sequences of length
`≤ N`, or a `u32` count overflow). -/
def fromSequences (A N : Nat) (seqs : List (List Nat)) : Option Model :=
  fromSequencesGo A N [] seqs

/-- Embeds `kmer.successor(c)`: drop the first character, append `c`. -/
def kmerSuccessor (k : Kmer) (c : Nat) : Kmer := (k ++ [c]).tail

/-- The `u32` abundance sum `let sum: u32 = abundances.iter().cloned().sum()`
of `NGramSequenceGenerator::next`, with wrapping (release) semantics.  The
debug build instead panics as soon as the running sum exceeds `u32::MAX`;
in particular it panics on every row whose wrapped sum is `0` while the
row is not all zeroes, which is exactly where this model reports the
`Uniform::new(0, 0)` panic of the release build. -/
def u32Sum (row : List Nat) : Nat := row.sum % 2 ^ 32

/-- The inner loop of `NGramSequenceGenerator::next` that finds the first
character index whose running `u32` prefix sum of abundances (wrapping,
release semantics; the debug build panics at the overflow instead) exceeds
the sample; `none` is the `from_index(usize::MAX).unwrap()` panic when no
index is found. -/
def pickWeightedAux : List Nat → Nat → Nat → Nat → Option Nat
  | [], _, _, _ => none
  | c :: rest, sample, current_sum, index =>
      if sample < (current_sum + c) % 2 ^ 32 then some index
      else pickWeightedAux rest sample ((current_sum + c) % 2 ^ 32) (index + 1)

/-- Weighted character selection from a count row given a uniform sample. -/
def pickWeighted (row : List Nat) (sample : Nat) : Option Nat :=
  pickWeightedAux row sample 0 0

/-- The mutable state of `NGramSequenceGenerator`. -/
structure GenState where
  kmer : Option Kmer
  next_index : Nat
  deriving DecidableEq, Repr

/-- Embeds `NGramSequenceGenerator::next` (`src/n_gram_model/mod.rs` lines 163-204).
The RNG is the stream `rng` read at position `t`; each draw advances `t`.
The source function recurses after discarding an absent k-mer and after
seeding a fresh k-mer; that recursion never nests more than three calls
deep (absent → reseed → emit/sample), so fuel `3` reproduces it exactly;
running out of fuel or a panic — an `.unwrap()` failure, or
`Uniform::new(0, sum)` with a zero (possibly wrapped-to-zero) `u32` row
sum — is `none`. -/
def genNextFuel (model : Model) (N : Nat) (rng : Nat → Nat) :
    Nat → GenState → Nat → Option (Nat × GenState × Nat)
  | 0, _, _ => none
  | fuel + 1, st, t =>
    match st.kmer with
    | some k =>
      if st.next_index < N then
        match k[st.next_index]? with
        | some c => some (c, ⟨some k, st.next_index + 1⟩, t)
        | none => none
      else
        match modelLookup model k with
        | some row =>
            if u32Sum row = 0 then none
            else
              match pickWeighted row (rng t % u32Sum row) with
              | some index => some (index, ⟨some (kmerSuccessor k index), st.next_index⟩, t + 1)
              | none => none
        | none => genNextFuel model N rng fuel ⟨none, st.next_index⟩ t
    | none =>
      match model[rng t % model.length]? with
      | some e => genNextFuel model N rng fuel ⟨some e.1, 0⟩ (t + 1)
      | none => none

/-- Embeds `generator.take(length)`: materialise `n` characters of the stream. -/
def genChars (model : Model) (N : Nat) (rng : Nat → Nat) :
    Nat → GenState → Nat → Option (List Nat)
  | 0, _, _ => some []
  | n + 1, st, t =>
    match genNextFuel model N rng 3 st t with
    | some (c, st', t') => (genChars model N rng n st' t').map (c :: ·)
    | none => none

/-- Total weight handed to `WeightedIndex::new`: the sum over all contexts of
the row's count sum. -/
def totalWeight (model : Model) : Nat :=
  (model.map (fun e => e.2.sum)).sum

/-- Embeds `NGramModel::generate_sequence` (`src/n_gram_model/mod.rs` lines 67-91):
check `length < N`, build the context sampler (`WeightedIndex::new` fails on
an empty model or an all-zero weight sum, which is mapped to `EmptyModel`),
then materialise `length` characters.  `Except.ok none` models a panic
during generation. -/
def generateSequence (model : Model) (N length : Nat) (rng : Nat → Nat) :
    Except Error (Option (List Nat)) :=
  if length < N then .error (.LengthLowerThanN length N)
  else if model = [] ∨ totalWeight model = 0 then .error .EmptyModel
  else .ok (genChars model N rng length ⟨none, 0⟩ 0)

/-- Embeds `Vec::splice(a..b, replacement)`: replace `[a, b)` by `replacement`
(well-formed for `a ≤ b ≤ s.length`; other inputs panic in Rust). -/
def spliceList (s : List Nat) (a b : Nat) (repl : List Nat) : List Nat :=
  s.take a ++ repl ++ s.drop b

/-- The `TemplateSwitch` arm of `SequenceModification::apply`
(`src/sequence_modifier/mod.rs` lines 292-307): `rc` is the alphabet's
`reverse_complement` on character indices, so `reverse_complement_iter()`
is `(s.map rc).reverse`. -/
def tsApply (rc : Nat → Nat) (s : List Nat) (position length : Nat)
    (offset length_difference : Int) : List Nat :=
  let replacement :=
    (((s.map rc).reverse).drop
        (s.length - toUsize ((position : Int) + offset + 1))).take length
  spliceList s position (toUsize ((position : Int) + (length : Int) - length_difference))
    replacement

/-- The admissible template-switch position range of `SequenceModifier::next`
(`src/sequence_modifier/mod.rs` lines 151-156) as the pair `(low, high)`. -/
def tsPositionRange (P margin : Nat) (offset length length_difference : Int) :
    Int × Int :=
  (max 0 (offset - length) + margin,
   (P : Int) - max (max (max 0 offset) length) (length + length_difference)
     - margin)

/-- The position range `[low, high)` is non-empty for sequence length `P`. -/
def tsRangeNonempty (P margin : Nat) (offset length length_difference : Int) : Prop :=
  (tsPositionRange P margin offset length length_difference).1 <
    (tsPositionRange P margin offset length length_difference).2

/-- The value stored in `template_switch_required_sequence_length`:
`(position_range.start + (sequence_length as isize - position_range.end)) as usize`. -/
def tsRequiredReported (P margin : Nat) (offset length length_difference : Int) : Nat :=
  toUsize ((tsPositionRange P margin offset length length_difference).1 +
    ((P : Int) - (tsPositionRange P margin offset length length_difference).2))

/-- The position-sampling step of the template-switch arm of
`SequenceModifier::next` (lines 151-165): draw a position uniformly from
`low..high`, or fail with `SequenceTooShortForTemplateSwitch`. -/
def tsSamplePosition (P margin : Nat) (offset length length_difference : Int)
    (r : Nat) : Except Error Int :=
  if (tsPositionRange P margin offset length length_difference).1 <
      (tsPositionRange P margin offset length length_difference).2 then
    .ok ((tsPositionRange P margin offset length length_difference).1 +
      r % ((tsPositionRange P margin offset length length_difference).2 -
        (tsPositionRange P margin offset length length_difference).1).toNat)
  else
    .error (.SequenceTooShortForTemplateSwitch P
      (tsRequiredReported P margin offset length length_difference))

/-- Invariant of a generator state: any held k-mer has `N` characters, all
valid alphabet indices (the type invariant of `BitArrayKmer`). -/
def StOk (A N : Nat) (st : GenState) : Prop :=
  ∀ k, st.kmer = some k → k.length = N ∧ ∀ c ∈ k, c < A

theorem tryInsert_nil (nr : Nat × Nat) : tryInsert [] nr = some [nr] := rfl

theorem tryInsert_cons_of_le {r nr : Nat × Nat} {t : List (Nat × Nat)}
    (h : r.2 ≤ nr.1) :
    tryInsert (r :: t) nr = (tryInsert t nr).map (r :: ·) := by
  unfold tryInsert
  simp only [List.takeWhile_cons, decide_eq_true_eq, if_pos h, List.length_cons,
    List.getElem?_cons_succ]
  cases hget : t[(t.takeWhile (fun s => decide (s.2 ≤ nr.1))).length]? with
  | none => simp [insertAt]
  | some s =>
      by_cases hovl : nr.1 < s.2 ∧ s.1 < nr.2 <;> simp [hovl, insertAt]

theorem tryInsert_cons_of_overlap {r nr : Nat × Nat} {t : List (Nat × Nat)}
    (h : ¬r.2 ≤ nr.1) (h2 : r.1 < nr.2) : tryInsert (r :: t) nr = none := by
  unfold tryInsert
  simp only [List.takeWhile_cons, decide_eq_true_eq, if_neg h, List.length_nil,
    List.getElem?_cons_zero]
  simp [Nat.lt_of_not_le h, h2]

theorem tryInsert_cons_of_fit {r nr : Nat × Nat} {t : List (Nat × Nat)}
    (h : ¬r.2 ≤ nr.1) (h2 : ¬r.1 < nr.2) :
    tryInsert (r :: t) nr = some (nr :: r :: t) := by
  unfold tryInsert
  simp only [List.takeWhile_cons, decide_eq_true_eq, if_neg h, List.length_nil,
    List.getElem?_cons_zero]
  simp [h2, insertAt]

theorem tryInsert_inv {nr : Nat × Nat} :
    ∀ {l l' : List (Nat × Nat)}, DetectorInv l → nr.1 ≤ nr.2 →
      tryInsert l nr = some l' →
      DetectorInv l' ∧ ∀ x ∈ l', x ∈ l ∨ x = nr := by
  intro l
  induction l with
  | nil =>
      intro l' _ hnr h
      rw [tryInsert_nil] at h
      cases h
      exact ⟨⟨by simp [hnr], by simp⟩, by simp⟩
  | cons r t ih =>
      intro l' hinv hnr h
      obtain ⟨hwf, hpw⟩ := hinv
      rw [List.pairwise_cons] at hpw
      by_cases hr : r.2 ≤ nr.1
      · rw [tryInsert_cons_of_le hr] at h
        obtain ⟨l'', hl'', rfl⟩ := Option.map_eq_some'.mp h
        obtain ⟨⟨hwf'', hpw''⟩, hmem''⟩ :=
          ih ⟨fun s hs => hwf s (List.mem_cons_of_mem r hs), hpw.2⟩ hnr hl''
        refine ⟨⟨?_, ?_⟩, ?_⟩
        · intro s hs
          rcases List.mem_cons.mp hs with rfl | hs
          · exact hwf s (List.mem_cons_self _ _)
          · exact hwf'' s hs
        · rw [List.pairwise_cons]
          refine ⟨fun s hs => ?_, hpw''⟩
          rcases hmem'' s hs with hs' | rfl
          · exact hpw.1 s hs'
          · exact hr
        · intro x hx
          rcases List.mem_cons.mp hx with rfl | hx
          · exact Or.inl (List.mem_cons_self _ _)
          · rcases hmem'' x hx with hx' | rfl
            · exact Or.inl (List.mem_cons_of_mem r hx')
            · exact Or.inr rfl
      · by_cases h2 : r.1 < nr.2
        · rw [tryInsert_cons_of_overlap hr h2] at h
          cases h
        · rw [tryInsert_cons_of_fit hr h2] at h
          cases h
          refine ⟨⟨?_, ?_⟩, ?_⟩
          · intro s hs
            rcases List.mem_cons.mp hs with rfl | hs
            · exact hnr
            · exact hwf s hs
          · rw [List.pairwise_cons]
            refine ⟨fun s hs => ?_, List.pairwise_cons.mpr hpw⟩
            rcases List.mem_cons.mp hs with rfl | hs
            · exact Nat.le_of_not_lt h2
            · exact le_trans (Nat.le_of_not_lt h2)
                (le_trans (hwf r (List.mem_cons_self _ _)) (hpw.1 s hs))
          · intro x hx
            rcases List.mem_cons.mp hx with rfl | hx
            · exact Or.inr rfl
            · exact Or.inl hx

theorem applyModification_inv (d : TemplateSwitchOverlapDetector)
    (m : SequenceModification) (hinv : DetectorInv d.template_switches)
    (hok : rangeOkB d m = true) :
    DetectorInv ((applyModification d m).1).template_switches := by
  cases m with
  | templateSwitch position length offset length_difference =>
      have hc : (tsCandidate d position length offset length_difference).1 ≤
          (tsCandidate d position length offset length_difference).2 := by
        simpa [rangeOkB] using hok
      simp only [applyModification]
      split
      · exact hinv
      · cases htry : tryInsert d.template_switches
            (tsCandidate d position length offset length_difference) with
        | none => simpa [htry] using hinv
        | some l => simpa [htry] using (tryInsert_inv hinv hc htry).1
  | insertion position source length => exact hinv
  | deletion position length => exact hinv
  | substitution position character_increment => exact hinv

theorem applyAll_inv :
    ∀ (ms : List SequenceModification) (d : TemplateSwitchOverlapDetector),
      DetectorInv d.template_switches → goodTraceB d ms = true →
      DetectorInv (applyAll d ms).template_switches := by
  intro ms
  induction ms with
  | nil => intro d hinv _; exact hinv
  | cons m ms ih =>
      intro d hinv h
      rw [goodTraceB, Bool.and_eq_true] at h
      exact ih _ (applyModification_inv d m hinv h.1) h.2

theorem DetectorInv.sortedDisjoint {l : List (Nat × Nat)} (h : DetectorInv l) :
    SortedDisjoint l := by
  obtain ⟨hwf, hpw⟩ := h
  constructor
  · exact hpw.imp_of_mem
      (fun {r s} hr _ hle => le_trans (hwf r hr) hle)
  · exact hpw.imp (fun {r s} hle => fun x _ hx2 hs => by omega)

theorem applyModification_overlap_cases (d : TemplateSwitchOverlapDetector)
    (m : SequenceModification) :
    applyModification d m = (d, .Overlap) ∨
      (applyModification d m).2 = .Independent := by
  cases m with
  | templateSwitch position length offset length_difference =>
      simp only [applyModification]
      split
      · exact Or.inl rfl
      · split
        · exact Or.inl rfl
        · exact Or.inr rfl
  | insertion position source length => exact Or.inr rfl
  | deletion position length => exact Or.inr rfl
  | substitution position character_increment => exact Or.inr rfl

/-- C5: on a fresh overlap detector with margin 10, the three template
switches `{position=50, length=10, offset=-5, length_difference=5}`,
`{position=100, length=10, offset=-5, length_difference=5}` and
`{position=150, length=10, offset=-5, length_difference=-10}` are all
accepted as `Independent`, and the stored ranges afterwards are exactly
`[25..65, 70..110, 115..170]`. -/
theorem claim5_detector_scenario :
    (applyModification (freshDetector 10) (.templateSwitch 50 10 (-5) 5)).2 =
      .Independent ∧
    (applyModification (applyAll (freshDetector 10)
        [.templateSwitch 50 10 (-5) 5])
      (.templateSwitch 100 10 (-5) 5)).2 = .Independent ∧
    (applyModification (applyAll (freshDetector 10)
        [.templateSwitch 50 10 (-5) 5, .templateSwitch 100 10 (-5) 5])
      (.templateSwitch 150 10 (-5) (-10))).2 = .Independent ∧
    (applyAll (freshDetector 10)
        [.templateSwitch 50 10 (-5) 5, .templateSwitch 100 10 (-5) 5,
         .templateSwitch 150 10 (-5) (-10)]).template_switches =
      [(25, 65), (70, 110), (115, 170)] := by
  refine ⟨by decide, by decide, by decide, by decide⟩

/-- C6: whenever `apply_modification` returns `Overlap`, the detector state
is completely unchanged — both the stored range list and the modification
stack are exactly as before the call. -/
theorem claim6_overlap_rejection_atomic (d : TemplateSwitchOverlapDetector)
    (m : SequenceModification)
    (h : (applyModification d m).2 = .Overlap) :
    (applyModification d m).1 = d := by
  rcases applyModification_overlap_cases d m with hcase | hcase
  · rw [hcase]
  · rw [hcase] at h
    exact TemplateSwitchCollision.noConfusion h

/-- Witness for C6 at a concrete rejected call (margin guard). -/
theorem claim6_witness :
    (applyModification (freshDetector 10) (.templateSwitch 5 1 0 0)).2 =
      .Overlap ∧
    (applyModification (freshDetector 10) (.templateSwitch 5 1 0 0)).1 =
      freshDetector 10 :=
  ⟨by decide, claim6_overlap_rejection_atomic _ _ (by decide)⟩

/-- C3, counterexample to the claim as stated: starting from a fresh detector
(margin 0), the three template switches below are all processed by
`apply_modification`, yet afterwards the stored list is *not* sorted by range
start: the second stored range's start wrapped around to `2^64 - 50`
(`(new_range.start as isize - length_difference) as usize` with
`new_range.start = 50 < length_difference = 100`), which exceeds the third
stored range's start `200`. -/
theorem claim3_counterexample :
    (applyAll (freshDetector 0)
        [.templateSwitch 10 100 90 100, .templateSwitch 50 100 100 0,
         .templateSwitch 300 100 100 0]).template_switches =
      [(0, 100), (2 ^ 64 - 50, 50), (200, 300)] ∧
    ¬SortedDisjoint ((applyAll (freshDetector 0)
        [.templateSwitch 10 100 90 100, .templateSwitch 50 100 100 0,
         .templateSwitch 300 100 100 0]).template_switches) := by
  have hval : (applyAll (freshDetector 0)
      [.templateSwitch 10 100 90 100, .templateSwitch 50 100 100 0,
       .templateSwitch 300 100 100 0]).template_switches =
      [(0, 100), (2 ^ 64 - 50, 50), (200, 300)] := by decide
  refine ⟨hval, ?_⟩
  rw [hval]
  rintro ⟨hs, -⟩
  rw [List.pairwise_cons] at hs
  obtain ⟨-, hs⟩ := hs
  rw [List.pairwise_cons] at hs
  have h := hs.1 (200, 300) (by simp)
  norm_num at h

/-- C3 (amended): for every margin and every sequence of
`apply_modification` calls from a fresh detector in which no rewrite through
the modification stack wraps a candidate range around zero (each candidate
range still has `start ≤ end` after the rewrite, `goodTraceB`), the stored
`template_switches` list is sorted by range start and pairwise disjoint.
Since `goodTraceB` of a trace restricts to every prefix of it, this gives
the invariant after every call. -/
theorem claim3_detector_invariant (margin : Nat)
    (ms : List SequenceModification)
    (h : goodTraceB (freshDetector margin) ms = true) :
    SortedDisjoint ((applyAll (freshDetector margin) ms).template_switches) :=
  (applyAll_inv ms (freshDetector margin) ⟨by simp [freshDetector], by simp [freshDetector]⟩ h).sortedDisjoint

/-- Witness for C3 on the concrete margin-10 trace of claim C5. -/
theorem claim3_witness :
    goodTraceB (freshDetector 10)
      [.templateSwitch 50 10 (-5) 5, .templateSwitch 100 10 (-5) 5,
       .templateSwitch 150 10 (-5) (-10)] = true ∧
    SortedDisjoint ((applyAll (freshDetector 10)
      [.templateSwitch 50 10 (-5) 5, .templateSwitch 100 10 (-5) 5,
       .templateSwitch 150 10 (-5) (-10)]).template_switches) :=
  ⟨by decide, claim3_detector_invariant 10 _ (by decide)⟩

/-- C10: in the gap arm of `SequenceModifier::next`, the
`SequenceTooShortForGap` error is raised exactly when the rounded gap length
is strictly larger than the sequence length; when it is *equal*, the
uniform draw over the empty range `0..P - L` returns `None` and the
`.unwrap()` panics instead. -/
theorem claim10_gap_equal_length_panics (P L : Nat) (coin : Bool)
    (r1 r2 : Nat) (hP : 0 < P) :
    ((gapBranch P L coin r1 r2 = .error (.SequenceTooShortForGap P L)) ↔ P < L) ∧
    (L = P → gapBranch P L coin r1 r2 = .panic) := by
  constructor
  · by_cases h : P < L
    · simp [gapBranch, h]
    · simp only [gapBranch, if_neg (by omega : ¬L > P)]
      constructor
      · intro he
        exfalso
        cases coin with
        | false =>
            revert he
            cases hc : chooseRange (P - L) r1 <;> simp
        | true =>
            revert he
            cases hc1 : chooseRange P r1 <;>
              cases hc2 : chooseRange (P - L) r2 <;> simp
      · intro hPL
        exact absurd hPL h
  · intro hL
    subst hL
    simp only [gapBranch, if_neg (by omega : ¬L > L), Nat.sub_self]
    cases coin with
    | false => simp [chooseRange]
    | true => simp [chooseRange, hP.ne']

/-- Witness for C10 at `P = L = 3`. -/
theorem claim10_witness :
    ((gapBranch 3 3 true 0 0 = .error (.SequenceTooShortForGap 3 3)) ↔ 3 < 3) ∧
    (3 = 3 → gapBranch 3 3 true 0 0 = .panic) :=
  claim10_gap_equal_length_panics 3 3 true 0 0 (by decide)

/-- C4: training on the single 6-character DNA sequence `ACGTAC`
(character indices A=0, C=1, G=2, T=3) with `N = 2` yields exactly the
mapping `AC → [0,0,1,0]`, `CG → [0,0,0,1]`, `GT → [1,0,0,0]`; the context
`TA` of the last window is absent. -/
theorem claim4_training_scenario :
    fromSequences 4 2 [[0, 1, 2, 3, 0, 1]] =
      some [([0, 1], [0, 0, 1, 0]), ([1, 2], [0, 0, 0, 1]),
            ([2, 3], [1, 0, 0, 0])] ∧
    modelLookup [([0, 1], [0, 0, 1, 0]), ([1, 2], [0, 0, 0, 1]),
      ([2, 3], [1, 0, 0, 0])] [3, 0] = none := by
  refine ⟨by decide, by decide⟩

theorem trainBound_pos {len N : Nat} (hlen : len ≤ N) (hN : N + 1 < 2 ^ 64) :
    0 < trainBound len N := by
  unfold trainBound toUsize
  omega

theorem trainSequence_short {A N : Nat} (s : List Nat) (model : Model)
    (hlen : s.length ≤ N) (hN : N + 1 < 2 ^ 64) :
    trainSequence A N model s = none := by
  unfold trainSequence
  obtain ⟨k, hk⟩ : ∃ k, trainBound s.length N = k + 1 :=
    ⟨trainBound s.length N - 1, by have := trainBound_pos hlen hN; omega⟩
  rw [hk]
  by_cases hw : 0 + N ≤ s.length
  · have hw' : N ≤ s.length := by omega
    have hwin : seqWindow s 0 N = some ((s.drop 0).take N) := by
      simp [seqWindow, hw']
    have hle : s.length ≤ N := hlen
    have hsucc : s[N]? = none := List.getElem?_eq_none hle
    simp [trainWindows, hwin, hsucc]
  · have hwin : seqWindow s 0 N = none := by
      simp only [seqWindow, if_neg hw]
    simp [trainWindows, hwin]

theorem fromSequencesGo_short {A N : Nat} (hN : N + 1 < 2 ^ 64) :
    ∀ (seqs : List (List Nat)) (model : Model) (s : List Nat),
      s ∈ seqs → s.length ≤ N → fromSequencesGo A N model seqs = none := by
  intro seqs
  induction seqs with
  | nil => intro model s hs; cases hs
  | cons s0 rest ih =>
      intro model s hs hlen
      rcases List.mem_cons.mp hs with rfl | hs
      · simp [fromSequencesGo, trainSequence_short s model hlen hN]
      · simp only [fromSequencesGo]
        cases htr : trainSequence A N model s0 with
        | none => simp
        | some m' => simpa [htr] using ih m' s hs hlen

/-- C9: `from_sequences` dies (modelled as `none`) on any input containing a
sequence of length at most `N`: the loop bound `len - N - 1` underflows in
unsigned arithmetic and the training pass panics (index out of bounds after
the wrap), so training is total only under the precondition that every
input sequence has length at least `N + 1`.  `N + 1 < 2^64` is the platform
bound (the source supports `N ≤ 9`). -/
theorem claim9_training_short_sequence_panics (A N : Nat)
    (seqs : List (List Nat)) (s : List Nat) (hs : s ∈ seqs)
    (hlen : s.length ≤ N) (hN : N + 1 < 2 ^ 64) :
    fromSequences A N seqs = none :=
  fromSequencesGo_short hN seqs [] s hs hlen

theorem pickWeightedAux_some :
    ∀ (row : List Nat) (sample current_sum index : Nat),
      current_sum ≤ sample → sample < current_sum + row.sum →
      current_sum + row.sum < 2 ^ 32 →
      ∃ j, pickWeightedAux row sample current_sum index = some j ∧
        j < index + row.length := by
  intro row
  induction row with
  | nil => intro sample cs idx hle hlt _; simp at hlt; omega
  | cons c rest ih =>
      intro sample cs idx hle hlt hbound
      have hsum : (c :: rest).sum = c + rest.sum := by simp
      have hmod : (cs + c) % 2 ^ 32 = cs + c := Nat.mod_eq_of_lt (by omega)
      by_cases h : sample < cs + c
      · refine ⟨idx, ?_, by simp⟩
        rw [pickWeightedAux, hmod, if_pos h]
      · obtain ⟨j, hj, hjlt⟩ := ih sample (cs + c) (idx + 1) (by omega)
          (by omega) (by omega)
        refine ⟨j, ?_, by simp; omega⟩
        rw [pickWeightedAux, hmod, if_neg h, hj]

theorem modelLookup_mem :
    ∀ {model : Model} {k : Kmer} {row : List Nat},
      modelLookup model k = some row → (k, row) ∈ model := by
  intro model
  induction model with
  | nil => intro k row h; cases h
  | cons e rest ih =>
      intro k row h
      obtain ⟨k0, row0⟩ := e
      simp only [modelLookup] at h
      by_cases hk : k = k0
      · rw [if_pos hk] at h
        cases h
        subst hk
        exact List.mem_cons_self _ _
      · rw [if_neg hk] at h
        exact List.mem_cons_of_mem _ (ih h)

theorem mem_modelLookup :
    ∀ {model : Model} {k : Kmer} {row : List Nat}, (k, row) ∈ model →
      ∃ row', modelLookup model k = some row' ∧ (k, row') ∈ model := by
  intro model
  induction model with
  | nil => intro k row h; cases h
  | cons e rest ih =>
      intro k row h
      obtain ⟨k0, row0⟩ := e
      by_cases hk : k = k0
      · refine ⟨row0, by simp [modelLookup, hk], ?_⟩
        rw [hk]
        exact List.mem_cons_self _ _
      · rcases List.mem_cons.mp h with heq | hmem
        · exact absurd (congrArg Prod.fst heq) hk
        · obtain ⟨row', hl, hm⟩ := ih hmem
          exact ⟨row', by simp [modelLookup, hk, hl], List.mem_cons_of_mem _ hm⟩

theorem kmerSuccessor_length (k : Kmer) (c : Nat) :
    (kmerSuccessor k c).length = k.length := by
  simp [kmerSuccessor]

theorem kmerSuccessor_mem {k : Kmer} {c x : Nat} (hx : x ∈ kmerSuccessor k c) :
    x ∈ k ∨ x = c := by
  have hx' : x ∈ k ++ [c] := List.mem_of_mem_tail hx
  rcases List.mem_append.mp hx' with h | h
  · exact Or.inl h
  · simp at h
    exact Or.inr h

theorem genNext_emit {model : Model} {N A : Nat} {rng : Nat → Nat}
    (fuel : Nat) {t : Nat} {st : GenState} {k : Kmer} (hk : st.kmer = some k)
    (hni : st.next_index < N) (hkN : k.length = N) (hkA : ∀ c ∈ k, c < A) :
    ∃ c st' t', genNextFuel model N rng (fuel + 1) st t = some (c, st', t') ∧
      c < A ∧ StOk A N st' := by
  have hlt : st.next_index < k.length := by omega
  have hget : k[st.next_index]? = some (k[st.next_index]) :=
    List.getElem?_eq_getElem hlt
  refine ⟨k[st.next_index], ⟨some k, st.next_index + 1⟩, t, ?_, ?_, ?_⟩
  · simp [genNextFuel, hk, hni, hget]
  · exact hkA _ (List.getElem_mem hlt)
  · rintro k' hk'
    cases hk'
    exact ⟨hkN, hkA⟩

theorem genNext_sample {model : Model} {N A : Nat} {rng : Nat → Nat}
    (fuel : Nat) {t : Nat} {st : GenState} {k : Kmer} (hk : st.kmer = some k)
    (hni : ¬st.next_index < N)
    (hrows : ∀ e ∈ model, e.2.length = A ∧ e.2.sum ≠ 0 ∧ e.2.sum < 2 ^ 32)
    (hkN : k.length = N) (hkA : ∀ c ∈ k, c < A)
    (hmem : ∃ row, (k, row) ∈ model) :
    ∃ c st' t', genNextFuel model N rng (fuel + 1) st t = some (c, st', t') ∧
      c < A ∧ StOk A N st' := by
  obtain ⟨row0, hmem0⟩ := hmem
  obtain ⟨row, hlook, hmemrow⟩ := mem_modelLookup hmem0
  obtain ⟨hrowA0, hrowsum0, hrowlt0⟩ := hrows _ hmemrow
  have hrowA : row.length = A := hrowA0
  have hrowsum : row.sum ≠ 0 := hrowsum0
  have hrowlt : row.sum < 2 ^ 32 := hrowlt0
  have hu32 : u32Sum row = row.sum := Nat.mod_eq_of_lt hrowlt
  have hsample : rng t % row.sum < 0 + row.sum := by
    have := Nat.mod_lt (rng t) (Nat.pos_of_ne_zero hrowsum)
    omega
  obtain ⟨j, hpick, hj⟩ :=
    pickWeightedAux_some row (rng t % row.sum) 0 0 (Nat.zero_le _) hsample
      (by omega)
  refine ⟨j, ⟨some (kmerSuccessor k j), st.next_index⟩, t + 1, ?_, ?_, ?_⟩
  · simp [genNextFuel, hk, hni, hlook, hu32, hrowsum, pickWeighted, hpick]
  · omega
  · rintro k' hk'
    cases hk'
    constructor
    · rw [kmerSuccessor_length]
      exact hkN
    · intro c hc
      rcases kmerSuccessor_mem hc with h | rfl
      · exact hkA c h
      · omega

theorem genNext_seed {model : Model} {N A : Nat} {rng : Nat → Nat}
    (fuel : Nat) {t : Nat} {st : GenState} (hk : st.kmer = none)
    (hne : model ≠ [])
    (hkeys : ∀ e ∈ model, e.1.length = N ∧ ∀ c ∈ e.1, c < A)
    (hrows : ∀ e ∈ model, e.2.length = A ∧ e.2.sum ≠ 0 ∧ e.2.sum < 2 ^ 32) :
    ∃ c st' t', genNextFuel model N rng (fuel + 2) st t = some (c, st', t') ∧
      c < A ∧ StOk A N st' := by
  have hpos : 0 < model.length := List.length_pos.mpr hne
  have hidx : rng t % model.length < model.length := Nat.mod_lt _ hpos
  have hget : model[rng t % model.length]? = some (model[rng t % model.length]) :=
    List.getElem?_eq_getElem hidx
  have hmem : model[rng t % model.length] ∈ model := List.getElem_mem hidx
  obtain ⟨heN, heA⟩ := hkeys _ hmem
  have hstep : genNextFuel model N rng (fuel + 2) st t =
      genNextFuel model N rng (fuel + 1) ⟨some (model[rng t % model.length]).1, 0⟩ (t + 1) := by
    conv_lhs => rw [genNextFuel]
    simp only [hk, hget]
  rw [hstep]
  by_cases hN : 0 < N
  · exact genNext_emit fuel rfl hN heN heA
  · refine genNext_sample fuel rfl hN hrows heN heA ?_
    exact ⟨(model[rng t % model.length]).2, by simp [hmem]⟩

theorem genNext_step {model : Model} {N A : Nat} (rng : Nat → Nat) (t : Nat)
    (st : GenState) (hne : model ≠ [])
    (hkeys : ∀ e ∈ model, e.1.length = N ∧ ∀ c ∈ e.1, c < A)
    (hrows : ∀ e ∈ model, e.2.length = A ∧ e.2.sum ≠ 0 ∧ e.2.sum < 2 ^ 32)
    (hst : StOk A N st) :
    ∃ c st' t', genNextFuel model N rng 3 st t = some (c, st', t') ∧
      c < A ∧ StOk A N st' := by
  cases hk : st.kmer with
  | none => exact genNext_seed 1 hk hne hkeys hrows
  | some k =>
      obtain ⟨hkN, hkA⟩ := hst k hk
      by_cases hni : st.next_index < N
      · exact genNext_emit 2 hk hni hkN hkA
      · cases hlook : modelLookup model k with
        | some row =>
            exact genNext_sample 2 hk hni hrows hkN hkA ⟨row, modelLookup_mem hlook⟩
        | none =>
            have hstep : genNextFuel model N rng 3 st t =
                genNextFuel model N rng 2 ⟨none, st.next_index⟩ t := by
              conv_lhs => rw [genNextFuel]
              simp only [hk, hlook, if_neg hni]
            rw [hstep]
            exact genNext_seed 0 rfl hne hkeys hrows

theorem genChars_ok {model : Model} {N A : Nat} (rng : Nat → Nat)
    (hne : model ≠ [])
    (hkeys : ∀ e ∈ model, e.1.length = N ∧ ∀ c ∈ e.1, c < A)
    (hrows : ∀ e ∈ model, e.2.length = A ∧ e.2.sum ≠ 0 ∧ e.2.sum < 2 ^ 32) :
    ∀ (n : Nat) (st : GenState) (t : Nat), StOk A N st →
      ∃ s, genChars model N rng n st t = some s ∧ s.length = n ∧
        ∀ c ∈ s, c < A := by
  intro n
  induction n with
  | zero => intro st t _; exact ⟨[], rfl, rfl, by simp⟩
  | succ n ih =>
      intro st t hst
      obtain ⟨c, st', t', hstep, hcA, hst'⟩ :=
        genNext_step rng t st hne hkeys hrows hst
      obtain ⟨s, hs, hslen, hsA⟩ := ih st' t' hst'
      refine ⟨c :: s, ?_, by simp [hslen], ?_⟩
      · simp [genChars, hstep, hs]
      · intro x hx
        rcases List.mem_cons.mp hx with rfl | hx
        · exact hcA
        · exact hsA x hx

/-- C1, counterexample to the claim as stated: the model with the single
context `[0]` (`N = 1`) and count row `[2^31, 2^31, 0, 0]` satisfies every
hypothesis of the claim — it stores a context, the row is `A`-wide with
positive entries (each a valid `u32` count, and such a row total is
reachable by training since `checked_add` bounds each entry but not the
row total) — yet `generate_sequence(2, rng)` with the constant-zero RNG
stream panics instead of returning two characters:
`let sum: u32 = abundances.iter().cloned().sum()` overflows, the debug
build dying at the sum and the release build wrapping it to `0` so that
`Uniform::new(0, 0)` panics. -/
theorem claim1_counterexample :
    ([([0], [2 ^ 31, 2 ^ 31, 0, 0])] : Model) ≠ [] ∧
    (∀ e ∈ ([([0], [2 ^ 31, 2 ^ 31, 0, 0])] : Model),
      e.1.length = 1 ∧ ∀ c ∈ e.1, c < 4) ∧
    (∀ e ∈ ([([0], [2 ^ 31, 2 ^ 31, 0, 0])] : Model),
      e.2.length = 4 ∧ ∃ c ∈ e.2, 0 < c) ∧
    (1 : Nat) ≤ 2 ∧
    generateSequence [([0], [2 ^ 31, 2 ^ 31, 0, 0])] 1 2 (fun _ => 0) =
      .ok none ∧
    ¬∃ s, generateSequence [([0], [2 ^ 31, 2 ^ 31, 0, 0])] 1 2 (fun _ => 0) =
      .ok (some s) ∧ s.length = 2 ∧ ∀ c ∈ s, c < 4 := by
  refine ⟨by decide, by decide, by decide, by decide, rfl, ?_⟩
  rintro ⟨s, hs, -, -⟩
  rw [show generateSequence [([0], [2 ^ 31, 2 ^ 31, 0, 0])] 1 2 (fun _ => 0) =
      .ok none from rfl] at hs
  simp at hs

/-- C1 (amended): for every model that stores at least one context, whose
rows are `A`-wide count arrays each with at least one positive entry *and a
total count that fits in a `u32`* (and whose keys are well-formed
`N`-character contexts, the `BitArrayKmer` type invariant), every requested
`length ≥ N` and every RNG stream, `generate_sequence` returns `Ok` of a
sequence of exactly `length` characters, each a valid alphabet character. -/
theorem claim1_generate_sequence_ok (model : Model) (N A length : Nat)
    (rng : Nat → Nat) (hne : model ≠ [])
    (hkeys : ∀ e ∈ model, e.1.length = N ∧ ∀ c ∈ e.1, c < A)
    (hrows : ∀ e ∈ model, e.2.length = A ∧ (∃ c ∈ e.2, 0 < c) ∧
      e.2.sum < 2 ^ 32)
    (hlen : N ≤ length) :
    ∃ s, generateSequence model N length rng = .ok (some s) ∧
      s.length = length ∧ ∀ c ∈ s, c < A := by
  have hrows' : ∀ e ∈ model, e.2.length = A ∧ e.2.sum ≠ 0 ∧
      e.2.sum < 2 ^ 32 := by
    intro e he
    obtain ⟨hA, ⟨c, hc, hcpos⟩, hlt⟩ := hrows e he
    refine ⟨hA, fun hz => ?_, hlt⟩
    rw [List.sum_eq_zero_iff] at hz
    exact absurd (hz c hc) (by omega)
  obtain ⟨s, hs, hslen, hsA⟩ :=
    genChars_ok rng hne hkeys hrows' length ⟨none, 0⟩ 0 (by rintro k hk; cases hk)
  have hcond : ¬(model = [] ∨ totalWeight model = 0) := by
    rintro (h | h)
    · exact hne h
    · obtain ⟨e0, he0⟩ := List.exists_mem_of_ne_nil model hne
      have h1 : e0.2.sum ≠ 0 := (hrows' e0 he0).2.1
      have h2 : e0.2.sum ∈ model.map (fun e => e.2.sum) :=
        List.mem_map_of_mem _ he0
      unfold totalWeight at h
      rw [List.sum_eq_zero_iff] at h
      exact h1 (h _ h2)
  refine ⟨s, ?_, hslen, hsA⟩
  unfold generateSequence
  rw [if_neg (by omega : ¬length < N), if_neg hcond, hs]

/-- Witness for C1 on the model trained in claim C4, constant RNG stream. -/
theorem claim1_witness :
    ∃ s, generateSequence
        [([0, 1], [0, 0, 1, 0]), ([1, 2], [0, 0, 0, 1]), ([2, 3], [1, 0, 0, 0])]
        2 4 (fun _ => 0) = .ok (some s) ∧ s.length = 4 ∧ ∀ c ∈ s, c < 4 :=
  claim1_generate_sequence_ok _ 2 4 4 _ (by decide) (by decide) (by decide)
    (by decide)

/-- Witness for C9: a 2-character sequence with `N = 2`. -/
theorem claim9_witness :
    [0, 1] ∈ [[0, 1]] ∧ ([0, 1] : List Nat).length ≤ 2 ∧ 2 + 1 < 2 ^ 64 ∧
    fromSequences 4 2 [[0, 1]] = none :=
  ⟨by decide, by decide, by norm_num,
    claim9_training_short_sequence_panics 4 2 [[0, 1]] [0, 1] (by decide)
      (by decide) (by norm_num)⟩

theorem toUsize_eq_toNat {x : Int} (h0 : 0 ≤ x) (hlt : x < 2 ^ 64) :
    toUsize x = x.toNat := by
  unfold toUsize
  rw [Int.emod_eq_of_lt h0 hlt]

/-- C2, counterexample to the claim as stated: applying
`TemplateSwitch{position=4, length=4, offset=-1, length_difference=2}` to a
12-character sequence yields a 14-character sequence — the length *grows* by
`length_difference` (the splice removes `length - length_difference = 2`
characters and inserts `length = 4`), so the net change is
`+length_difference`, not `-length_difference`. -/
theorem claim2_counterexample :
    (tsApply (fun c => 3 - c) [0, 1, 2, 3, 0, 1, 2, 3, 0, 1, 2, 3]
      4 4 (-1) 2).length = 14 ∧
    ¬(((tsApply (fun c => 3 - c) [0, 1, 2, 3, 0, 1, 2, 3, 0, 1, 2, 3]
        4 4 (-1) 2).length : Int) = (12 : Int) - 2) := by
  refine ⟨by decide, by decide⟩

/-- C2 (amended): for every sequence and template switch whose index
arithmetic stays within the sequence (and a sequence that fits in a usize),
`apply` replaces `[position, position + length - length_difference)` with the
reverse-complement of `[position + offset - length + 1, position + offset + 1)`
read forward — a replacement of exactly `length` characters — and the net
change of the sequence's length is `+length_difference`. -/
theorem claim2_template_switch_apply (rc : Nat → Nat) (s : List Nat)
    (position length : Nat) (offset length_difference : Int)
    (hbound : (s.length : Int) < 2 ^ 64)
    (h1 : (length : Int) ≤ (position : Int) + offset + 1)
    (h2 : (position : Int) + offset + 1 ≤ (s.length : Int))
    (h3 : length_difference ≤ (length : Int))
    (h4 : (position : Int) + (length : Int) - length_difference ≤ (s.length : Int)) :
    tsApply rc s position length offset length_difference =
      s.take position ++
        (((s.drop (((position : Int) + offset + 1 - length).toNat)).take
            length).map rc).reverse ++
        s.drop (((position : Int) + (length : Int) - length_difference).toNat) ∧
    ((((s.drop (((position : Int) + offset + 1 - length).toNat)).take
        length).map rc).reverse).length = length ∧
    ((tsApply rc s position length offset length_difference).length : Int) =
      (s.length : Int) + length_difference := by
  have hju : toUsize ((position : Int) + offset + 1) =
      ((position : Int) + offset + 1).toNat :=
    toUsize_eq_toNat (by omega) (by omega)
  have hbu : toUsize ((position : Int) + (length : Int) - length_difference) =
      ((position : Int) + (length : Int) - length_difference).toNat :=
    toUsize_eq_toNat (by omega) (by omega)
  obtain ⟨j, hj⟩ : ∃ j : Nat, ((position : Int) + offset + 1).toNat = j := ⟨_, rfl⟩
  obtain ⟨b, hb⟩ : ∃ b : Nat,
      ((position : Int) + (length : Int) - length_difference).toNat = b := ⟨_, rfl⟩
  have hjZ : (j : Int) = (position : Int) + offset + 1 := by omega
  have hbZ : (b : Int) = (position : Int) + (length : Int) - length_difference := by
    omega
  have hstart : ((position : Int) + offset + 1 - length).toNat = j - length := by
    omega
  have hjn : j ≤ s.length := by omega
  have hLj : length ≤ j := by omega
  have hpb : position ≤ b := by omega
  have hbn : b ≤ s.length := by omega
  have hrepl : (((s.map rc).reverse).drop (s.length - j)).take length =
      (((s.drop (j - length)).take length).map rc).reverse := by
    have hmaplen : (s.map rc).length = s.length := by simp
    rw [List.drop_reverse, hmaplen]
    rw [show s.length - (s.length - j) = j by omega]
    rw [List.take_reverse]
    rw [show ((s.map rc).take j).length = j by simp [hmaplen]; omega]
    rw [List.drop_take]
    rw [show j - (j - length) = length by omega]
    rw [← List.map_drop, ← List.map_take]
  have happly : tsApply rc s position length offset length_difference =
      s.take position ++
        (((s.drop (j - length)).take length).map rc).reverse ++ s.drop b := by
    unfold tsApply spliceList
    rw [hju, hbu, hj, hb, hrepl]
  have hrepllen : ((((s.drop (j - length)).take length).map rc).reverse).length =
      length := by
    simp only [List.length_reverse, List.length_map, List.length_take,
      List.length_drop]
    omega
  refine ⟨by rw [happly, hstart, hb], by rw [hstart]; exact hrepllen, ?_⟩
  rw [happly]
  simp only [List.length_append, hrepllen, List.length_take, List.length_drop]
  push_cast
  omega

/-- Witness for C2 at the concrete input of the counterexample. -/
theorem claim2_witness :
    tsApply (fun c => 3 - c) [0, 1, 2, 3, 0, 1, 2, 3, 0, 1, 2, 3] 4 4 (-1) 2 =
      ([0, 1, 2, 3, 0, 1, 2, 3, 0, 1, 2, 3] : List Nat).take 4 ++
        ((((([0, 1, 2, 3, 0, 1, 2, 3, 0, 1, 2, 3] : List Nat).drop
              (((4 : Int) + (-1) + 1 - 4).toNat)).take 4).map
            (fun c => 3 - c)).reverse) ++
        ([0, 1, 2, 3, 0, 1, 2, 3, 0, 1, 2, 3] : List Nat).drop
          (((4 : Int) + (4 : Int) - 2).toNat) ∧
    ((((([0, 1, 2, 3, 0, 1, 2, 3, 0, 1, 2, 3] : List Nat).drop
          (((4 : Int) + (-1) + 1 - 4).toNat)).take 4).map
        (fun c => 3 - c)).reverse).length = 4 ∧
    ((tsApply (fun c => 3 - c) [0, 1, 2, 3, 0, 1, 2, 3, 0, 1, 2, 3]
        4 4 (-1) 2).length : Int) = (12 : Int) + 2 :=
  claim2_template_switch_apply (fun c => 3 - c)
    [0, 1, 2, 3, 0, 1, 2, 3, 0, 1, 2, 3] 4 4 (-1) 2 (by norm_num) (by norm_num)
    (by norm_num) (by norm_num) (by norm_num)

/-- C7, counterexample to the claim as stated: with margin 0, offset 0,
length 5, length_difference 0 and sequence length 5, position sampling fails
and reports `template_switch_required_sequence_length = 5` — but at sequence
length 5 the position range `[0, 0)` is still empty, so the reported value
is *not* the minimum sequence length that makes the range non-empty (that
minimum is 6). -/
theorem claim7_counterexample :
    tsSamplePosition 5 0 0 5 0 0 =
      .error (.SequenceTooShortForTemplateSwitch 5 5) ∧
    ¬tsRangeNonempty 5 0 0 5 0 := by
  refine ⟨rfl, ?_⟩
  unfold tsRangeNonempty tsPositionRange
  decide

/-- C7 (amended): when the admissible position range is empty,
`SequenceModifier::next` fails with `SequenceTooShortForTemplateSwitch`, and
the reported `template_switch_required_sequence_length` is the *largest*
sequence length for which the range is still empty: sequence lengths make
the range non-empty exactly when they strictly exceed the reported value
(the minimum sufficient length is the reported value plus one). -/
theorem claim7_required_length (P margin : Nat)
    (offset length length_difference : Int) (r : Nat)
    (hbound : max 0 (offset - length) + (margin : Int) +
      max (max (max 0 offset) length) (length + length_difference) + margin <
        2 ^ 64) :
    ((tsSamplePosition P margin offset length length_difference r =
        .error (.SequenceTooShortForTemplateSwitch P
          (tsRequiredReported P margin offset length length_difference))) ↔
      ¬tsRangeNonempty P margin offset length length_difference) ∧
    ∀ P' : Nat, tsRangeNonempty P' margin offset length length_difference ↔
      ((tsRequiredReported P margin offset length length_difference : Int) < P') := by
  have harg : (tsPositionRange P margin offset length length_difference).1 +
      ((P : Int) - (tsPositionRange P margin offset length length_difference).2) =
      max 0 (offset - length) + (margin : Int) +
        max (max (max 0 offset) length) (length + length_difference) + margin := by
    unfold tsPositionRange
    ring_nf
  have h0 : (0 : Int) ≤ max 0 (offset - length) + (margin : Int) +
      max (max (max 0 offset) length) (length + length_difference) + margin := by
    have hm1 : (0 : Int) ≤ max 0 (offset - length) := le_max_left _ _
    have hm2 : (0 : Int) ≤ max (max (max 0 offset) length)
        (length + length_difference) :=
      le_trans (le_max_left _ _) (le_trans (le_max_left _ _) (le_max_left _ _))
    omega
  have hrep : (tsRequiredReported P margin offset length length_difference : Int) =
      max 0 (offset - length) + (margin : Int) +
        max (max (max 0 offset) length) (length + length_difference) + margin := by
    unfold tsRequiredReported
    rw [harg, toUsize_eq_toNat h0 hbound, Int.toNat_of_nonneg h0]
  constructor
  · unfold tsSamplePosition tsRangeNonempty
    split
    · rename_i hlt
      constructor
      · intro he
        exact Except.noConfusion he
      · intro hcon
        exact absurd hlt hcon
    · rename_i hge
      exact ⟨fun _ => hge, fun _ => rfl⟩
  · intro P'
    unfold tsRangeNonempty tsPositionRange
    unfold tsPositionRange at hrep
    omega

/-- Witness for C7 at the concrete input of the counterexample. -/
theorem claim7_witness :
    ((tsSamplePosition 5 0 0 5 0 0 =
        .error (.SequenceTooShortForTemplateSwitch 5
          (tsRequiredReported 5 0 0 5 0))) ↔ ¬tsRangeNonempty 5 0 0 5 0) ∧
    ∀ P' : Nat, tsRangeNonempty P' 0 0 5 0 ↔
      ((tsRequiredReported 5 0 0 5 0 : Int) < P') :=
  claim7_required_length 5 0 0 5 0 0 (by norm_num)

end TSGen
